import Mathlib

/-
Verification of the reactive-store / effect-stream runtime of the
todomvc-fp repository against its natural-language specification.

The embedding is shallow: each TypeScript function relevant to a claim is
translated into a Lean definition, and the stateful runtime (the store's
Ref and Queue, the DOM listener registry, the memoize cache) is modelled
by explicit state passing.  JavaScript's nullish values (null and
undefined, which the source only distinguishes through the == null test)
are modelled by Option, with none standing for a nullish value.
-/

set_option autoImplicit false

/-! ## Store (src/src/modules/store.ts)

The store pairs a Ref holding a one-element array with an unbounded
Queue.  The Ref content is modelled as the list the source keeps in it
(empty when the store is built without an initial value, a singleton
otherwise); the Queue is the list of values offered so far and not yet
taken.  JavaScript array destructuring of the head (the source's
pattern ([current]) => ...) yields undefined on an empty array, which is
jsHead below.  The update callback passed to next is therefore modelled
with domain Option A: it receives some of the current state when the
cell is populated, and none (undefined) when it is empty. -/

/-- Head of a JavaScript array as destructuring reads it: undefined (none)
on the empty array. This is also fp-ts ReadonlyArray.head, used by get. -/
def jsHead {A : Type} : List A → Option A
  | [] => none
  | a :: _ => some a

/-- The mutable state owned by one store: the Ref cell (a list that the
source keeps at length at most one) and the Queue buffer. -/
structure StoreSt (A : Type) where
  cell : List A
  queue : List A
deriving Repr, DecidableEq

/-- store(initial?) from store.ts: the Ref starts as [initial] when an
initial value is supplied and as the empty array otherwise; the Queue
starts empty. -/
def storeInit {A : Type} (initial : Option A) : StoreSt A :=
  ⟨match initial with
    | some a => [a]
    | none => [], []⟩

/-- next(f) from store.ts: state.update(([current]) => [f(current)])
followed by queue.offer of the value just written.  The callback sees the
destructured head of the cell (undefined on an empty cell). -/
def storeNext {A : Type} (g : Option A → A) (s : StoreSt A) : StoreSt A :=
  let v := g (jsHead s.cell)
  ⟨[v], s.queue ++ [v]⟩

/-- get from store.ts: pipe(state.get, T.map(head)). -/
def storeGet {A : Type} (s : StoreSt A) : Option A :=
  jsHead s.cell

/-- Running a sequence of next(f1), next(f2), ... in order. -/
def applyUpdates {A : Type} (gs : List (Option A → A)) (s : StoreSt A) : StoreSt A :=
  gs.foldl (fun st g => storeNext g st) s

/-- After any update sequence on a seeded store the cell is exactly the
singleton of the left-to-right composition, each callback receiving some
of the previous state. -/
theorem applyUpdates_cell {A : Type} (gs : List (Option A → A)) :
    ∀ (s : StoreSt A) (a : A), s.cell = [a] →
      (applyUpdates gs s).cell = [gs.foldl (fun x g => g (some x)) a] := by
  induction gs with
  | nil => intro s a h; simpa [applyUpdates] using h
  | cons g gs ih =>
    intro s a h
    have hstep : (storeNext g s).cell = [g (some a)] := by
      simp [storeNext, h, jsHead]
    have := ih (storeNext g s) (g (some a)) hstep
    simpa [applyUpdates, List.foldl_cons] using this

/-- Claim C1: for every store seeded with s0 and every sequence of
next(f1), ..., next(fn) executed in order, a subsequent get returns some
of fn(...f2(f1(s0))): each update callback receives the previous state
(wrapped in some, since the seeded cell is always a populated singleton)
and the results compose left to right, get reading the head of the cell
that the last next wrote. -/
theorem store_update_composition {A : Type} (s0 : A) (gs : List (Option A → A)) :
    storeGet (applyUpdates gs (storeInit (some s0)))
      = some (gs.foldl (fun x g => g (some x)) s0) := by
  have hcell : (applyUpdates gs (storeInit (some s0))).cell
      = [gs.foldl (fun x g => g (some x)) s0] :=
    applyUpdates_cell gs (storeInit (some s0)) s0 rfl
  simp [storeGet, hcell, jsHead]

/-- Claim C8: for a store created without an initial value, get returns
none (the head of the empty Ref array) until a next completes, and the
first next(f) applies f to the undefined destructured head (none),
writing [f undefined] into the cell, after which get returns some of
that value. -/
theorem store_unseeded_first_update {A : Type} (g : Option A → A) :
    storeGet (storeInit (none : Option A)) = none
      ∧ (storeNext g (storeInit none)).cell = [g none]
      ∧ storeGet (storeNext g (storeInit none)) = some (g none) := by
  exact ⟨rfl, rfl, rfl⟩

/-! ## Subscriptions (store.ts subject / queue, spec section 3)

Modelled from the spec: the Queue and the subject subscription machinery
live in the @matechs/effect library, whose code is not among the
repository files; only store.ts, their caller, is.  Following spec
section 3, the Queue delivers items in offer order, without drop or
duplication or reorder, and -- per the caveat there -- all subscriptions
returned by subscribe drain the one shared Queue of the store rather
than each receiving a broadcast copy.  A schedule is a list of
interleaved operations: a next call (which updates the cell and offers
the new value), a take performed by one subscriber (which removes the
queue head and hands it to that subscriber; a take finding the queue
empty suspends, modelled as the schedule retrying it later), and the
establishing of a new subscription. -/

/-- Store state together with the values each subscriber has received so
far and the full sequence of values pushed so far. -/
structure SubSt (A : Type) where
  pushed : List A
  store : StoreSt A
  subs : List (List A)
deriving Repr, DecidableEq

/-- One step of an interleaved schedule over a store and its subscribers. -/
inductive SubOp (A : Type) where
  | next (g : Option A → A)
  | take (i : Nat)
  | addSub

/-- Interleaving semantics: next updates the cell and offers the written
value; take i hands the queue head to subscriber i (a take on an empty
queue, or by an index that is no subscriber, changes nothing); addSub
registers a fresh subscriber that starts with no received values. -/
def subStep {A : Type} (s : SubSt A) : SubOp A → SubSt A
  | .next g =>
      ⟨s.pushed ++ [g (jsHead s.store.cell)], storeNext g s.store, s.subs⟩
  | .take i =>
      match s.store.queue with
      | [] => s
      | x :: rest =>
          if i < s.subs.length then
            ⟨s.pushed, ⟨s.store.cell, rest⟩, s.subs.set i (s.subs.getD i [] ++ [x])⟩
          else s
  | .addSub => ⟨s.pushed, s.store, s.subs ++ [[]]⟩

/-- Running a schedule of interleaved operations. -/
def subRun {A : Type} (s : SubSt A) (ops : List (SubOp A)) : SubSt A :=
  ops.foldl subStep s

/-- A store freshly seeded with s0, before any subscription. -/
def subInit {A : Type} (s0 : A) : SubSt A :=
  ⟨[], storeInit (some s0), []⟩

/-- The schedule refuting multicast delivery: two subscriptions are
established, one value is pushed, and both subscribers attempt to
consume it. -/
def c2Ops : List (SubOp Nat) :=
  [.addSub, .addSub, .next (fun _ => 5), .take 0, .take 1]

/-- Claim C2 counterexample: with two subscriptions established before a
push, the pushed value 5 reaches only subscriber 0; subscriber 1
receives nothing although 5 was pushed after it subscribed, and the
shared queue is empty afterwards, so no later take can ever deliver 5 to
it.  The claim that every subscriber's stream emits every value pushed
after its subscription is false on this schedule. -/
theorem store_subscribe_not_multicast :
    (subRun (subInit 0) c2Ops).subs = [[5], []]
      ∧ (subRun (subInit 0) c2Ops).pushed = [5]
      ∧ (subRun (subInit 0) c2Ops).store.queue = []
      ∧ (subRun (subInit 0) c2Ops).subs.getD 1 [] ≠ (subRun (subInit 0) c2Ops).pushed := by
  refine ⟨rfl, rfl, rfl, by decide⟩

/-- Total number of values received across all subscribers. -/
def receivedTotal {A : Type} (s : SubSt A) : Nat :=
  (s.subs.map List.length).sum

/-- Raising one entry of a list of naturals by one raises the sum by one. -/
theorem sum_set_succ :
    ∀ (l : List Nat) (i : Nat), (h : i < l.length) →
      (l.set i (l.get ⟨i, h⟩ + 1)).sum = l.sum + 1 := by
  intro l
  induction l with
  | nil => intro i h; cases h
  | cons a l ih =>
    intro i h
    cases i with
    | zero => simp; omega
    | succ i =>
      have hi : i < l.length := by simpa using h
      have := ih i hi
      simp at this ⊢
      omega

/-- The conservation invariant is preserved by every operation: values
pushed = values received in total + values still queued. -/
theorem subStep_conservation {A : Type} (s : SubSt A) (op : SubOp A)
    (h : s.pushed.length = receivedTotal s + s.store.queue.length) :
    (subStep s op).pushed.length
      = receivedTotal (subStep s op) + (subStep s op).store.queue.length := by
  cases op with
  | next g => simp [subStep, receivedTotal, storeNext] at h ⊢; omega
  | addSub => simp [subStep, receivedTotal] at h ⊢; omega
  | take i =>
    cases hq : s.store.queue with
    | nil => simpa [subStep, hq] using h
    | cons x rest =>
      by_cases hi : i < s.subs.length
      · have hi2 : i < (s.subs.map List.length).length := by simpa using hi
        have hset := sum_set_succ (s.subs.map List.length) i hi2
        simp [subStep, hq, hi, receivedTotal] at h ⊢
        simp only [List.get_eq_getElem, List.getElem_map] at hset
        rw [hset]
        omega
      · simpa [subStep, hq, hi] using h

/-- Conservation over a whole schedule. -/
theorem subRun_conservation {A : Type} (ops : List (SubOp A)) :
    ∀ (s : SubSt A), s.pushed.length = receivedTotal s + s.store.queue.length →
      (subRun s ops).pushed.length
        = receivedTotal (subRun s ops) + (subRun s ops).store.queue.length := by
  induction ops with
  | nil => intro s h; simpa [subRun] using h
  | cons op ops ih =>
    intro s h
    have := ih (subStep s op) (subStep_conservation s op h)
    simpa [subRun, List.foldl_cons] using this

/-- Schedules in which the store is drained by subscriber 0 alone. -/
def singleConsumer {A : Type} (op : SubOp A) : Prop :=
  (∃ g, op = SubOp.next g) ∨ op = SubOp.take 0

/-- With a single subscriber the pushed sequence is always the received
sequence followed by the still-queued sequence: step preservation. -/
theorem subStep_single {A : Type} (s : SubSt A) (op : SubOp A)
    (hop : singleConsumer op)
    (hlen : s.subs.length = 1)
    (h : s.pushed = s.subs.getD 0 [] ++ s.store.queue) :
    (subStep s op).subs.length = 1
      ∧ (subStep s op).pushed
        = (subStep s op).subs.getD 0 [] ++ (subStep s op).store.queue := by
  obtain ⟨r, hr⟩ := List.length_eq_one.mp hlen
  rcases hop with ⟨g, rfl⟩ | rfl
  · refine ⟨by simpa [subStep] using hlen, ?_⟩
    simp [subStep, storeNext, hr, List.getD] at h ⊢
    simp [h]
  · cases hq : s.store.queue with
    | nil => exact ⟨by simp [subStep, hq, hlen], by simpa [subStep, hq] using h⟩
    | cons x rest =>
      have hi : 0 < s.subs.length := by omega
      refine ⟨by simp [subStep, hq, hi, hlen], ?_⟩
      simp [subStep, hq, hi, hr, List.getD] at h ⊢
      simp [h]

/-- With a single subscriber the invariant holds along a whole schedule. -/
theorem subRun_single {A : Type} (ops : List (SubOp A)) :
    ∀ (s : SubSt A), (∀ op ∈ ops, singleConsumer op) →
      s.subs.length = 1 →
      s.pushed = s.subs.getD 0 [] ++ s.store.queue →
      (subRun s ops).pushed
        = (subRun s ops).subs.getD 0 [] ++ (subRun s ops).store.queue := by
  induction ops with
  | nil => intro s _ _ h; simpa [subRun] using h
  | cons op ops ih =>
    intro s hops hlen h
    have hop : singleConsumer op := hops op (List.mem_cons_self op ops)
    have hrest : ∀ o ∈ ops, singleConsumer o :=
      fun o ho => hops o (List.mem_cons_of_mem op ho)
    obtain ⟨hlen2, h2⟩ := subStep_single s op hop hlen h
    have := ih (subStep s op) hrest hlen2 h2
    simpa [subRun, List.foldl_cons] using this

/-- A seeded store with exactly one established subscription. -/
def subInitOne {A : Type} (s0 : A) : SubSt A :=
  ⟨[], storeInit (some s0), [[]]⟩

/-- Claim C2 amended: values pushed after subscription are distributed
over the subscribers, not multicast.  Across every schedule the number
of pushed values equals the total received by all subscribers plus the
number still queued (each value delivered to at most one subscriber,
none invented, none duplicated), and when a single subscriber drains the
store it observes every pushed value in push order: the pushed sequence
is exactly its received sequence followed by the still-queued one. -/
theorem store_subscribe_distribution {A : Type} (s0 : A) (ops : List (SubOp A)) :
    ((subRun (subInit s0) ops).pushed.length
        = receivedTotal (subRun (subInit s0) ops)
            + (subRun (subInit s0) ops).store.queue.length)
      ∧ ((∀ op ∈ ops, singleConsumer op) →
          (subRun (subInitOne s0) ops).pushed
            = (subRun (subInitOne s0) ops).subs.getD 0 []
                ++ (subRun (subInitOne s0) ops).store.queue) := by
  constructor
  · exact subRun_conservation ops (subInit s0) (by simp [subInit, receivedTotal, storeInit])
  · intro hops
    exact subRun_single ops (subInitOne s0) hops (by simp [subInitOne])
      (by simp [subInitOne, storeInit, List.getD])

/-- Witness for the amended claim C2 at a concrete schedule: one
subscriber, one push of 7, one take. -/
theorem store_subscribe_distribution_witness :
    (subRun (subInitOne 0) [SubOp.next (fun _ => 7), SubOp.take 0]).pushed
      = (subRun (subInitOne 0) [SubOp.next (fun _ => 7), SubOp.take 0]).subs.getD 0 []
          ++ (subRun (subInitOne 0) [SubOp.next (fun _ => 7), SubOp.take 0]).store.queue := by
  refine (store_subscribe_distribution 0 [SubOp.next (fun _ => 7), SubOp.take 0]).2 ?_
  intro op hop
  rcases List.mem_cons.mp hop with h1 | h2
  · exact Or.inl ⟨fun _ => 7, h1⟩
  · rcases List.mem_cons.mp h2 with h3 | h4
    · exact Or.inr h3
    · cases h4

/-! ## Todos, JSON decoding and fetch (fetch.ts, todo.ts)

The io-ts decoders of todo.ts check the shape of the JSON payload: a
todo is an object with numeric id and userId, string title and boolean
completed; the payload is an array of such objects.  JSON numbers are
modelled as integers, since the decoders only inspect the type tag of a
value, never its magnitude. -/

/-- A JSON value as the decoders of todo.ts inspect it. -/
inductive Json where
  | jnull
  | jbool (b : Bool)
  | jnum (n : Int)
  | jstr (s : String)
  | jarr (items : List Json)
  | jobj (fields : List (String × Json))

/-- A decoded todo record. -/
structure Todo where
  id : Int
  userId : Int
  title : String
  completed : Bool
deriving Repr, DecidableEq

/-- Field lookup on a JSON object, undefined (none) when absent. -/
def jsonField (fields : List (String × Json)) (key : String) : Option Json :=
  fields.lookup key

/-- todoDecoder from todo.ts: t.type requires an object carrying a
number at id and userId, a string at title and a boolean at completed;
any other shape is a decode failure.  io-ts failures are values (a list
of validation errors); they are modelled here by the name of the first
offending field, which is all the claims inspect. -/
def decodeTodo (j : Json) : Except String Todo :=
  match j with
  | .jobj fields =>
      match jsonField fields "id" with
      | some (.jnum i) =>
          match jsonField fields "userId" with
          | some (.jnum u) =>
              match jsonField fields "title" with
              | some (.jstr t) =>
                  match jsonField fields "completed" with
                  | some (.jbool c) => .ok ⟨i, u, t, c⟩
                  | _ => .error "completed"
              | _ => .error "title"
          | _ => .error "userId"
      | _ => .error "id"
  | _ => .error "Todo"

/-- todosDecoder from todo.ts: t.readonlyArray of todoDecoder. -/
def decodeTodos (j : Json) : Except String (List Todo) :=
  match j with
  | .jarr items => items.mapM decodeTodo
  | _ => .error "Todos"

/-- The filter selector of the application state. -/
inductive FilterBy where
  | all
  | active
  | completed
deriving Repr, DecidableEq

/-- The state held by the todo store of todo.ts. -/
structure TodosState where
  todos : List Todo
  filterBy : FilterBy
deriving Repr, DecidableEq

/-- The error channel of the fetch-and-decode pipeline: a FetchFailed
from the fetch capability or an io-ts decode failure. -/
inductive AppErr where
  | fetchFailed (info : String)
  | decodeFailed (e : String)
deriving Repr, DecidableEq

/-- A deferred computation over mutable state sigma that may fail with
epsilon: the fragment of the Effect type the fetch-and-store claims
need, run to a final state and a result. -/
def Eff (σ ε α : Type) : Type := σ → σ × Except ε α

/-- T.pure / T.sync of a pure thunk: no state change, no failure. -/
def effPure {σ ε α : Type} (a : α) : Eff σ ε α :=
  fun s => (s, .ok a)

/-- T.chain: sequential bind; when the first computation fails the
continuation is never invoked and the failure propagates unchanged. -/
def effChain {σ ε α β : Type} (m : Eff σ ε α) (f : α → Eff σ ε β) : Eff σ ε β :=
  fun s =>
    match m s with
    | (s1, .ok a) => f a s1
    | (s1, .error e) => (s1, .error e)

/-- T.fromEither: lift an Either value into the effect. -/
def effFromExcept {σ ε α : Type} (x : Except ε α) : Eff σ ε α :=
  fun s => (s, x)

/-- The resolved outcome of the fetch effect, as fetchTodos consumes it:
the JSON payload on success, a FetchFailed on failure. -/
def fetchEff {σ : Type} (outcome : Except String Json) : Eff σ AppErr Json :=
  fun s =>
    (s, match outcome with
        | .ok j => .ok j
        | .error info => .error (.fetchFailed info))

/-- fetchTodos from todo.ts: fetch the payload, decode it inside T.sync,
then lift the Either through T.fromEither. -/
def fetchTodosEff {σ : Type} (outcome : Except String Json) : Eff σ AppErr (List Todo) :=
  effChain (fetchEff outcome) (fun response =>
    effChain (effPure (decodeTodos response)) (fun decoded =>
      effFromExcept (match decoded with
        | .ok todos => .ok todos
        | .error e => .error (.decodeFailed e))))

/-- replaceTodosInStore from todo.ts: store.next of the callback that
keeps the current state and replaces its todos.  The cell of the seeded
todo store is always a populated singleton; the none branch (a spread of
an undefined state) is unreachable there. -/
def replaceTodosInStore (todos : List Todo) : Eff (StoreSt TodosState) AppErr Unit :=
  fun s =>
    (storeNext (fun cur =>
        match cur with
        | some st => { st with todos := todos }
        | none => { todos := todos, filterBy := .all }) s,
      .ok ())

/-- fetchAndStoreTodos from todo.ts: pipe(fetchTodos, T.chain(replaceTodosInStore)). -/
def fetchAndStoreTodos (outcome : Except String Json) : Eff (StoreSt TodosState) AppErr Unit :=
  effChain (fetchTodosEff outcome) replaceTodosInStore

/-- Claim C4: when the fetched payload fails schema decoding,
fetchAndStoreTodos fails with that decode error and the store state is
exactly what it was before the call: the failing chain short-circuits,
so store.next is never invoked and no partial write happens. -/
theorem fetchAndStore_decode_atomic (payload : Json) (s : StoreSt TodosState)
    (e : String) (h : decodeTodos payload = .error e) :
    fetchAndStoreTodos (.ok payload) s = (s, .error (.decodeFailed e)) := by
  simp [fetchAndStoreTodos, fetchTodosEff, fetchEff, effChain, effPure, effFromExcept, h]

/-- A payload whose single record lacks the title field. -/
def malformedPayload : Json :=
  Json.jarr [Json.jobj
    [("id", Json.jnum 1), ("userId", Json.jnum 1), ("completed", Json.jbool false)]]

/-- Witness for claim C4: on the record missing title, decoding fails on
the title field, the effect fails with that decode error, and the store
(seeded with no todos, filter all) is untouched. -/
theorem fetchAndStore_decode_atomic_witness :
    fetchAndStoreTodos (.ok malformedPayload) (storeInit (some ⟨[], .all⟩))
      = (storeInit (some ⟨[], .all⟩), .error (.decodeFailed "title")) :=
  fetchAndStore_decode_atomic malformedPayload (storeInit (some ⟨[], .all⟩)) "title" rfl

/-! ## The fetch capability wrapper (src/src/modules/fetch.ts)

The register callback passed to T.async calls the fetch capability,
chains response.json() and only then hands an Ok result to the resolve
callback r.  The try/catch around it catches a synchronous throw of the
capability; a rejection of either promise, however, has no handler
anywhere on the chain, so r is never invoked on that path.  The model
returns the resolution handed to r, or none when r is never called (the
effect stays pending forever). -/

/-- A Response object, reduced to the outcome of its json() method:
the parsed payload, or the parse error its promise rejects with. -/
structure Resp where
  json : Except String Json

/-- How a call of the fetch capability can go: throw synchronously,
resolve with a response, or reject (network failure). -/
inductive FetchCall where
  | throwsSync (err : String)
  | resolves (resp : Resp)
  | rejects (err : String)

/-- makeFetchFailed from fetch.ts: both the url and the error it is
given are discarded; the FetchFailed message is the constant template
prefixed by the Error constructor. -/
def makeFetchFailed (url : String) (err : String) : String :=
  "Unable to fetch: Fetching data from "

/-- The register callback of fetch from fetch.ts, by cases on the
capability call: a synchronous throw is caught and resolved as a
FetchFailed; a resolved response has json() chained, whose success is
resolved as Ok -- but a json() rejection or a fetch rejection reaches no
handler, so the resolve callback is never invoked (none). -/
def fetchRegister (url : String) (call : FetchCall) : Option (Except String Json) :=
  match call with
  | .throwsSync err => some (.error (makeFetchFailed url err))
  | .resolves resp =>
      match resp.json with
      | .ok j => some (.ok j)
      | .error _ => none
  | .rejects _ => none

/-- Claim C3 is false of the code: on a network rejection or a JSON
parse rejection the resolve callback is never invoked, so the effect
hangs instead of failing in the error channel; and even on the one path
that does fail, the FetchFailed carries no information about the failed
request (makeFetchFailed discards both its arguments).  The spec and the
surrounding error taxonomy make the intent clear, so this is a code
bug: a missing rejection handler on the promise chain. -/
theorem fetch_rejection_never_resolves (url err : String) (payload : String) :
    fetchRegister url (.rejects err) = none
      ∧ fetchRegister url (.resolves ⟨.error err⟩) = none
      ∧ makeFetchFailed url err = "Unable to fetch: Fetching data from "
      ∧ makeFetchFailed url err = makeFetchFailed payload payload := by
  exact ⟨rfl, rfl, rfl, rfl⟩

/-! ## Event emitter listener lifecycle (src/unnamed emitter module)

The DOM listener registry of one element is modelled as the list of
(event type, callback) registrations, callbacks identified by a number
standing for their reference identity.  addEventListener ignores a
duplicate registration of the same type and callback; removeEventListener
removes the matching registration and is a no-op when none matches
(native webidl behavior, as the spec notes).

The emitter capability built by makeEmitterLive wraps the given callback
in a fresh closure (wrappedCb, a new function object on every call, so
its identity always differs from cb), registers the wrapper, and returns
a teardown effect.  The Stream built by subscribe brackets this
acquisition, and per spec section 5 the bracketed release runs exactly
once on termination, failure or cancellation; the teardown itself is the
code under test here. -/

/-- The listener registrations of one element. -/
abbrev Listeners : Type := List (String × Nat)

/-- Native addEventListener: appends the registration unless the same
type and callback are already registered. -/
def domAdd (ty : String) (cb : Nat) (l : Listeners) : Listeners :=
  if (ty, cb) ∈ l then l else l ++ [(ty, cb)]

/-- Native removeEventListener: removes the matching registration,
a no-op when the pair was never added. -/
def domRemove (ty : String) (cb : Nat) (l : Listeners) : Listeners :=
  List.filter (fun p => p ≠ (ty, cb)) l

/-- Acquisition performed by the addEventListener capability of
makeEmitterLive: el.addEventListener(type, wrappedCb). -/
def emitterAcquire (ty : String) (wrapped : Nat) (l : Listeners) : Listeners :=
  domAdd ty wrapped l

/-- The teardown effect returned by that capability:
T.sync(() => el.removeEventListener(type, cb)) -- the original callback,
not the wrapper that was registered. -/
def emitterRelease (ty : String) (cb : Nat) (l : Listeners) : Listeners :=
  domRemove ty cb l

/-- One full bracketed subscribe cycle: acquire registers the wrapper,
and the release that the bracket guarantees to run once executes the
teardown. -/
def emitterCycle (ty : String) (cb wrapped : Nat) (l : Listeners) : Listeners :=
  emitterRelease ty cb (emitterAcquire ty wrapped l)

/-- Claim C5 is false of the code: after a full acquire-release cycle on
an element with no prior listeners (original callback identity 0, fresh
wrapper identity 1), the wrapper is still registered.  The release does
run exactly once, but it removes the original callback while the wrapper
was the callback added, so removeEventListener matches nothing and the
listener leaks.  The spec states the listener is unconditionally removed
with no leak, so this one-token slip (cb in place of wrappedCb in the
teardown) is a code bug. -/
theorem emitter_listener_leak :
    emitterCycle "click" 0 1 [] = [("click", 1)]
      ∧ emitterCycle "click" 0 1 [] ≠ ([] : Listeners) := by
  refine ⟨?_, ?_⟩ <;> decide

/-! ## Stream take (spec section 4.3) -/

/-- What running a stream with take over an instrumented source leaves
behind: the items emitted downstream, the number of pulls the source
answered, and whether the upstream resource is still held. -/
structure TakeResult (A : Type) where
  emitted : List A
  pulls : Nat
  upstreamOpen : Bool
deriving Repr, DecidableEq

/-- Modelled from the spec: the take combinator is code of the
@matechs/effect stream library, not among the repository files (only its
callers, such as handleBlur's S.take(1), are).  Per spec section 4.3,
take(n) pulls one item from the source per emission and stops pulling
after n successful items, cancelling the upstream resource on reaching
n.  The source is instrumented: its state is the number of pulls served
so far, pull number i yielding item f i.  takeDrive f p k drives a run
that has already pulled p items and still owes k emissions. -/
def takeDrive {A : Type} (f : Nat → A) : Nat → Nat → TakeResult A
  | p, 0 => ⟨[], p, false⟩
  | p, k + 1 =>
      let a := f p
      let r := takeDrive f (p + 1) k
      ⟨a :: r.emitted, r.pulls, r.upstreamOpen⟩

/-- A full run of take(n) against the instrumented source. -/
def takeRun {A : Type} (f : Nat → A) (n : Nat) : TakeResult A :=
  takeDrive f 0 n

/-- Driving a partial run emits the next k source items and pulls k more
times, then releases the upstream. -/
theorem takeDrive_spec {A : Type} (f : Nat → A) :
    ∀ (k p : Nat), takeDrive f p k = ⟨(List.range' p k).map f, p + k, false⟩ := by
  intro k
  induction k with
  | zero => intro p; simp [takeDrive, List.range']
  | succ k ih =>
    intro p
    simp [takeDrive, ih (p + 1), List.range']
    omega

/-- Claim C6: take(n) over a source able to emit more than n items emits
exactly the first n items, pulls from the source exactly n times -- not
n plus one -- and has cancelled the upstream resource when it
terminates. -/
theorem take_emits_exactly_n {A : Type} (f : Nat → A) (n : Nat) :
    (takeRun f n).emitted = (List.range n).map f
      ∧ (takeRun f n).pulls = n
      ∧ (takeRun f n).upstreamOpen = false := by
  have h := takeDrive_spec f n 0
  refine ⟨?_, ?_, ?_⟩ <;> simp [takeRun, h, List.range_eq_range']

/-! ## Stream scan (spec section 4.3) -/

/-- Modelled from the spec: the scan combinator is code of the
@matechs/effect stream library, not among the repository files (only its
caller, the S.scan of commitStoreUpdatesToDom, is).  Per spec section
4.3, scan(seed, f) is a stateful left fold emitting one output per
input, each output f(accumulator, input), the accumulator replaced by
the output at each step and seeded with seed for the first emission. -/
def scanEmits {A B : Type} (f : B → A → B) (b : B) : List A → List B
  | [] => []
  | x :: xs => f b x :: scanEmits f (f b x) xs

/-- Claim C7: over an input sequence of n items, scan(seed, f) emits
exactly n outputs, and the i-th output equals the left fold of f over
the first i+1 inputs started at seed. -/
theorem scan_left_fold {A B : Type} (f : B → A → B) (seed : B) (xs : List A) :
    (scanEmits f seed xs).length = xs.length
      ∧ ∀ i, i < xs.length →
          (scanEmits f seed xs).get? i = some ((xs.take (i + 1)).foldl f seed) := by
  constructor
  · induction xs generalizing seed with
    | nil => rfl
    | cons x xs ih => simpa [scanEmits] using ih (f seed x)
  · induction xs generalizing seed with
    | nil => intro i h; cases h
    | cons x xs ih =>
      intro i h
      cases i with
      | zero => simp [scanEmits]
      | succ i =>
        have hi : i < xs.length := by simpa using h
        simpa [scanEmits, List.get?] using ih (f seed x) i hi

/-- Witness for claim C7 at a concrete run: scanning addition from 0
over [1, 2, 3], output number 1 is the fold of the first two inputs. -/
theorem scan_left_fold_witness :
    (scanEmits (fun b a => b + a) 0 [1, 2, 3]).get? 1
      = some (([1, 2, 3].take 2).foldl (fun b a => b + a) 0) :=
  (scan_left_fold (fun b a => b + a) 0 [1, 2, 3]).2 1 (by decide)

/-! ## memoize (src/src/modules/utils.ts)

memoize keeps two mutable slots: previousA, initialized to undefined,
and previousB, uninitialized (undefined).  On a call with argument a it
first overwrites previousA with a whenever previousA == null (which is
true for the initial undefined but also for a stored null argument),
then recomputes and caches f(a) whenever a !== previousA or previousB ==
null, and returns the cached previousB.  Arguments and results are
JavaScript values of the declared types, so each is modelled as an
Option: none is a nullish value.  The strict inequality a !== previousA
is reference identity, modelled by decidable equality. -/

/-- The two cache slots of one memoized function. -/
structure MemoState (A B : Type) where
  prevA : Option A
  prevB : Option B
deriving Repr, DecidableEq

/-- The cache as the closure starts: both slots undefined. -/
def memoInit {A B : Type} : MemoState A B := ⟨none, none⟩

/-- One call of the memoized function: the next cache state, the value
returned, and whether f was invoked during the call. -/
def memoStep {A B : Type} [DecidableEq A] (f : Option A → Option B)
    (s : MemoState A B) (a : Option A) : MemoState A B × Option B × Bool :=
  let pA : Option A :=
    match s.prevA with
    | none => a
    | some x => some x
  if a ≠ pA ∨ s.prevB.isNone = true then
    (⟨a, f a⟩, f a, true)
  else
    (⟨pA, s.prevB⟩, s.prevB, false)

/-- A sequence of calls: final cache state and, per call, the returned
value and whether f was invoked. -/
def memoRun {A B : Type} [DecidableEq A] (f : Option A → Option B) :
    MemoState A B → List (Option A) → MemoState A B × List (Option B × Bool)
  | s, [] => (s, [])
  | s, a :: rest =>
      let r := memoStep f s a
      let rr := memoRun f r.1 rest
      (rr.1, (r.2.1, r.2.2) :: rr.2)

/-- How many calls of a run invoked f. -/
def invocations {B : Type} (out : List (Option B × Bool)) : Nat :=
  (out.filter (fun p => p.2)).length

/-- The function of the C9 counterexample: 7 on a nullish argument,
the successor otherwise -- every result is non-nullish. -/
def f9 : Option Nat → Option Nat
  | none => some 7
  | some n => some (n + 1)

/-- Claim C9 counterexample: call the memoized f9 first with the null
argument (result 7, f invoked), then with the different argument 0.  The
claim requires the second call to re-invoke f on 0 and return f(0) = 1;
the code instead overwrites previousA inside the previousA == null test,
sees the argument as unchanged, skips f, and returns the stale 7.  So
with nullish arguments admitted, re-invocation on a changed argument
fails. -/
theorem memoize_null_argument_staleness :
    memoRun f9 memoInit [none, some 0]
        = (⟨some 0, some 7⟩, [(some 7, true), (some 7, false)])
      ∧ f9 (some 0) = some 1
      ∧ some (0 : Nat) ≠ (none : Option Nat) := by
  refine ⟨by decide, rfl, by decide⟩

/-- Runs that only replay the cached argument never invoke f again. -/
theorem memoRun_cached {A B : Type} [DecidableEq A]
    (f : Option A → Option B) (a : A) (b : B) :
    ∀ n, memoRun f ⟨some a, some b⟩ (List.replicate n (some a))
      = (⟨some a, some b⟩, List.replicate n (some b, false)) := by
  intro n
  induction n with
  | zero => rfl
  | succ n ih =>
    have hstep : memoStep f ⟨some a, some b⟩ (some a)
        = (⟨some a, some b⟩, some b, false) := by
      simp [memoStep]
    simp [List.replicate, memoRun, hstep, ih]

/-- Claim C9 amended: restricted to non-nullish arguments the claimed
cache discipline holds.  A call repeating the cached argument with a
non-nullish cached result returns the cache without invoking f; a call
with a different argument re-invokes f on it and replaces both slots; a
nullish cached result forces recomputation even on the cached argument;
and across any number of consecutive calls with one and the same
argument, f (yielding a non-nullish result) is invoked exactly once. -/
theorem memoize_amended {A B : Type} [DecidableEq A]
    (f : Option A → Option B) (a a' : A) (b : B) (pb : Option B) (n : Nat) :
    memoStep f ⟨some a, some b⟩ (some a) = (⟨some a, some b⟩, some b, false)
      ∧ (a' ≠ a → memoStep f ⟨some a, pb⟩ (some a')
            = (⟨some a', f (some a')⟩, f (some a'), true))
      ∧ memoStep f ⟨some a, none⟩ (some a) = (⟨some a, f (some a)⟩, f (some a), true)
      ∧ (f (some a) ≠ none →
          invocations (memoRun f memoInit (List.replicate (n + 1) (some a))).2 = 1) := by
  refine ⟨by simp [memoStep], ?_, by simp [memoStep], ?_⟩
  · intro hne
    have : (some a' ≠ some a) := by simpa using hne
    simp [memoStep, this]
  · intro hf
    obtain ⟨b0, hb0⟩ := Option.ne_none_iff_exists'.mp hf
    have hstep : memoStep f memoInit (some a)
        = (⟨some a, some b0⟩, some b0, true) := by
      simp [memoStep, memoInit, hb0]
    have hrest := memoRun_cached f a b0 n
    simp [List.replicate, memoRun, hstep, hrest, invocations]

/-- Witness for the amended claim C9 at the successor function on
non-nullish naturals: cache hit without invocation, re-invocation on a
changed argument, recomputation on a nullish cache, and one invocation
across three repeated calls. -/
theorem memoize_amended_witness :
    memoStep f9 ⟨some 0, some 5⟩ (some 0) = (⟨some 0, some 5⟩, some 5, false)
      ∧ memoStep f9 ⟨some 0, some 5⟩ (some 1)
          = (⟨some 1, f9 (some 1)⟩, f9 (some 1), true)
      ∧ memoStep f9 ⟨some 0, none⟩ (some 0)
          = (⟨some 0, f9 (some 0)⟩, f9 (some 0), true)
      ∧ invocations (memoRun f9 memoInit (List.replicate 3 (some 0))).2 = 1 := by
  obtain ⟨h1, h2, h3, h4⟩ := memoize_amended f9 0 1 5 (some 5) 2
  exact ⟨h1, h2 (by decide), h3, h4 (by decide)⟩

/-! ## allTodosAreCompleted and the mark-all checkbox (todo.ts) -/

/-- allTodosAreCompleted from todo.ts: A.foldLeft over the list, true on
the empty list (constTrue), and on a cons the head's completed flag
conjoined with the recursion on the rest. -/
def allTodosAreCompleted : List Todo → Bool
  | [] => true
  | todo :: rest => todo.completed && allTodosAreCompleted rest

/-- The pure filtering function memoized by getFilteredTodos in todo.ts:
all keeps every todo, completed keeps the completed ones, active the
rest.  (The memoize wrappers are value-transparent here: arguments and
results are never nullish, so by the cache discipline of memoStep the
memoized function returns exactly this value.) -/
def filteredTodos (filterBy : FilterBy) (todos : List Todo) : List Todo :=
  if filterBy = FilterBy.all then todos
  else todos.filter (fun todo =>
    if filterBy = FilterBy.completed then todo.completed else !todo.completed)

/-- takeTenTodos from todo.ts: A.takeLeft(10). -/
def takeTenTodos (todos : List Todo) : List Todo :=
  todos.take 10

/-- The list handleMarkAllAsCompleted shows: the filtered todos
truncated to ten. -/
def shownTodos (state : TodosState) : List Todo :=
  takeTenTodos (filteredTodos state.filterBy state.todos)

/-- What handleMarkAllAsCompleted writes into the checkbox on a state
emission: input.checked = allTodosAreCompleted of the shown list. -/
def markAllChecked (state : TodosState) : Bool :=
  allTodosAreCompleted (shownTodos state)

/-- Claim C10: allTodosAreCompleted is true exactly when every todo of
the list is completed; in particular it is true of the empty list, so
the mark-all checkbox is set to checked whenever the filtered,
ten-item-truncated list shown is empty. -/
theorem allTodosAreCompleted_iff (ts : List Todo) (state : TodosState) :
    (allTodosAreCompleted ts = true ↔ ∀ t ∈ ts, t.completed = true)
      ∧ allTodosAreCompleted [] = true
      ∧ (shownTodos state = [] → markAllChecked state = true) := by
  refine ⟨?_, rfl, ?_⟩
  · induction ts with
    | nil => simp [allTodosAreCompleted]
    | cons t ts ih => simp [allTodosAreCompleted, ih]
  · intro h
    simp [markAllChecked, h, allTodosAreCompleted]

/-- Witness for claim C10: a state whose active filter shows nothing
(its single todo is completed) leaves the checkbox checked. -/
theorem allTodosAreCompleted_iff_witness :
    markAllChecked ⟨[⟨1, 1, "a", true⟩], FilterBy.active⟩ = true :=
  (allTodosAreCompleted_iff [] ⟨[⟨1, 1, "a", true⟩], FilterBy.active⟩).2.2 (by decide)
